import Mathlib

/-!
Verification of the Flipper UI excerpts: the `FrameworkEventsInspector`
component, the `PowerSearchEnumTerm` dropdown, the connectivity-log viewer
and the `SandyApp` application shell.  Every definition is a shallow
embedding of the corresponding TypeScript declaration; theorems check the
specification's sentences against these embeddings.
-/

namespace Flipper

/-- Decimal digits of `n`, least significant first.  Models the digit
sequence produced by JavaScript `Number.prototype.toString()` on a
non-negative integer. -/
def digitsRev (n : Nat) : List Char :=
  if h : n < 10 then [Nat.digitChar n]
  else Nat.digitChar (n % 10) :: digitsRev (n / 10)
termination_by n
decreasing_by
  exact Nat.div_lt_self (by omega) (by omega)

/-- JavaScript `Number.prototype.toString()` for a non-negative integer:
its decimal representation. -/
def natDecimal (n : Nat) : String :=
  String.mk (digitsRev n).reverse

/-- JavaScript `String.prototype.padStart(w, c)`: left-pad `s` with `c`
up to length `w`. -/
def padStart (w : Nat) (c : Char) (s : String) : String :=
  if w ≤ s.length then s
  else String.mk (List.replicate (w - s.length) c) ++ s

/-- A framework event as consumed by `FrameworkEventsInspector`
(fields of `FrameworkEvent` from `ClientTypes` that the component reads). -/
structure FrameworkEvent where
  type : String
  thread : String
  timestamp : Nat
deriving DecidableEq, Repr

/-- `filteredEvents` from `FrameworkEventsInspector.tsx` lines 65-73:
`events.filter(type-filter).filter(thread-filter)`, where each filter
passes when its set is empty (`size === 0`) or has the event's field. -/
def filteredEvents (filteredEventTypes filteredThreads : Finset String)
    (events : List FrameworkEvent) : List FrameworkEvent :=
  (events.filter (fun event =>
      decide (filteredEventTypes.card = 0 ∨ event.type ∈ filteredEventTypes))).filter
    (fun event =>
      decide (filteredThreads.card = 0 ∨ event.thread ∈ filteredThreads))

/-- The `onSelect` state update of `MultiSelectableDropDownItem` in
`FrameworkEventsInspector.tsx` (both the thread and event-type dropdowns):
inside `produce`, `draft.add(value)` when selected, `draft.delete(value)`
otherwise. -/
def updateFilter (cur : Finset String) (value : String) (selected : Bool) :
    Finset String :=
  if selected then insert value cur else cur.erase value

/-- Index of the last occurrence of `sep` in a character list, if any.
Models JavaScript `String.prototype.lastIndexOf` for a single-character
search string (`none` models the return value `-1`). -/
def lastSepIdx (sep : Char) : List Char → Option Nat
  | [] => none
  | c :: cs =>
    match lastSepIdx sep cs with
    | some i => some (i + 1)
    | none => if c = sep then some 0 else none

/-- `eventTypeToName` from `FrameworkEventsInspector.tsx` lines 286-288:
`eventType.slice(eventType.lastIndexOf(frameworkEventSeparator) + 1)`.
Modelled from the spec: `frameworkEventSeparator` is imported from
`FrameworkEventsTreeSelect`, which is not among the provided sources, so
it is taken as an arbitrary single-character separator `sep`. -/
def eventTypeToName (sep : Char) (eventType : String) : String :=
  match lastSepIdx sep eventType.data with
  | none => eventType
  | some i => String.mk (eventType.data.drop (i + 1))

/-- Colors of the `theme` object used by `threadToColor` (their concrete
CSS values live in the `flipper-plugin` library, outside the sources). -/
inductive ThemeColor where
  | warningColor
  | primaryColor
  | errorColor
deriving DecidableEq, Repr

/-- `threadToColor` from `FrameworkEventsInspector.tsx` lines 290-292:
`thread === 'main' ? theme.warningColor : theme.primaryColor`. -/
def threadToColor (thread : String) : ThemeColor :=
  if thread = "main" then ThemeColor.warningColor else ThemeColor.primaryColor

/-- One entry of the `timeline.time` array handed to
`TimelineDataDescription`. -/
structure TimelineEntry where
  moment : Nat
  display : String
  color : ThemeColor
  key : String
deriving DecidableEq, Repr

/-- The `timeline.time` array built in `FrameworkEventsInspector.tsx`
lines 187-197: `filteredEvents.map((event, idx) => ({moment, display,
color, key}))`. -/
def buildTimeline (sep : Char) (filtered : List FrameworkEvent) :
    List TimelineEntry :=
  filtered.mapIdx (fun idx event =>
    { moment := event.timestamp
      display := eventTypeToName sep event.type
      color := threadToColor event.thread
      key := natDecimal idx })

/-- Lodash `uniqBy` with an accumulator of already-seen keys: an element
is kept exactly when its key has not been produced by an earlier element. -/
def uniqByGo {α β : Type} [DecidableEq β] (f : α → β) :
    List β → List α → List α
  | _, [] => []
  | seen, x :: xs =>
    if f x ∈ seen then uniqByGo f seen xs
    else x :: uniqByGo f (f x :: seen) xs

/-- Lodash `uniqBy(array, key)`: keeps the first occurrence of each key,
in input order. -/
def uniqBy {α β : Type} [DecidableEq β] (f : α → β) (l : List α) : List α :=
  uniqByGo f [] l

/-- `allThreads` from `FrameworkEventsInspector.tsx` line 55:
`uniqBy(events, 'thread').map((event) => event.thread)`. -/
def allThreads (events : List FrameworkEvent) : List String :=
  (uniqBy FrameworkEvent.thread events).map FrameworkEvent.thread

/-- `allEventTypes` from `FrameworkEventsInspector.tsx` line 60:
`uniqBy(events, 'type').map((event) => event.type)`. -/
def allEventTypes (events : List FrameworkEvent) : List String :=
  (uniqBy FrameworkEvent.type events).map FrameworkEvent.type

/-- Claim-side description (C10): the list holding each distinct value of
the input exactly once, in order of first occurrence. -/
def firstOccurrenceDedup {β : Type} [DecidableEq β] : List β → List β
  | [] => []
  | b :: bs => b :: firstOccurrenceDedup (bs.filter (fun y => decide (y ≠ b)))
termination_by l => l.length
decreasing_by
  exact Nat.lt_succ_of_le (List.length_filter_le _ _)

/-- Deduplication by first occurrence, skipping values in `seen`:
bridge between `uniqByGo` and `firstOccurrenceDedup`. -/
def firstDedupSeen {β : Type} [DecidableEq β] : List β → List β → List β
  | _, [] => []
  | seen, b :: bs =>
    if b ∈ seen then firstDedupSeen seen bs
    else b :: firstDedupSeen (b :: seen) bs

/-- `formatDuration` from `FrameworkEventsInspector.tsx` lines 273-285.
JavaScript `Number.prototype.toFixed(2)` (which rounds the IEEE-754
double to two decimal places) is abstracted as the rendering parameter
`toFixed2` applied to the exact rational quotient. -/
def formatDuration (toFixed2 : ℚ → String) (nanoseconds : Nat) : String :=
  if nanoseconds < 1000 then
    natDecimal nanoseconds ++ " nanoseconds"
  else if nanoseconds < 1000000 then
    toFixed2 ((nanoseconds : ℚ) / 1000) ++ " microseconds"
  else if nanoseconds < 1000000000 then
    toFixed2 ((nanoseconds : ℚ) / 1000000) ++ " milliseconds"
  else if nanoseconds < 1000000000000 then
    toFixed2 ((nanoseconds : ℚ) / 1000000000) ++ " seconds"
  else
    toFixed2 ((nanoseconds : ℚ) / (1000000000 * 60)) ++ " minutes"

/-- `formatTimestamp` from `FrameworkEventsInspector.tsx` lines 264-271.
`Intl.DateTimeFormat('en-US', options).format(date)` is abstracted as the
parameter `intlFormat`; `date.getMilliseconds()` of a `Date` built from a
non-negative epoch-millisecond timestamp is its value modulo 1000. -/
def formatTimestamp (intlFormat : Nat → String) (timestamp : Nat) : String :=
  intlFormat timestamp ++ "." ++ padStart 3 '0' (natDecimal (timestamp % 1000))

/-- One option of the antd `Select` in `PowerSearchEnumTerm`. -/
structure SelectOption where
  label : String
  value : String
deriving DecidableEq, Repr

/-- The `options` memo of `PowerSearchEnumTerm`:
`Object.entries(enumLabels).map(([key, label]) => ({label, value: key}))`,
with the object's entries in enumeration order. -/
def enumTermOptions (enumLabels : List (String × String)) :
    List SelectOption :=
  enumLabels.map (fun kv => { label := kv.2, value := kv.1 })

/-- A row style of the connectivity-log table: `theme.monospace` plus an
optional theme color (the concrete CSS values live in `flipper-plugin`). -/
structure RowStyle where
  monospace : Bool
  color : Option ThemeColor
deriving DecidableEq, Repr

/-- `baseRowStyle` from the connectivity-log viewer: `{...theme.monospace}`. -/
def baseRowStyle : RowStyle := { monospace := true, color := none }

/-- One entry of the `logTypes` record of the connectivity-log viewer. -/
structure LogTypeInfo where
  label : String
  hasIcon : Bool
  style : Option RowStyle
  enabled : Bool
deriving DecidableEq, Repr

/-- The `logTypes` record of the connectivity-log viewer: `log` has no
style; `cmd` and `error` carry `baseRowStyle` extended with the primary
(resp. error) color; other keys are absent. -/
def logTypes (level : String) : Option LogTypeInfo :=
  if level = "log" then
    some { label := "Log", hasIcon := false, style := none, enabled := true }
  else if level = "cmd" then
    some { label := "Shell", hasIcon := true,
           style := some { monospace := true,
                           color := some ThemeColor.primaryColor },
           enabled := true }
  else if level = "error" then
    some { label := "Error", hasIcon := true,
           style := some { monospace := true,
                           color := some ThemeColor.errorColor },
           enabled := true }
  else none

/-- A `ConnectionRecordEntry` of the connectivity log (the fields read by
the table columns and by `getRowStyle`). -/
structure ConnectionRecordEntry where
  time : String
  device : String
  app : String
  medium : String
  message : String
  type : String
deriving DecidableEq, Repr

/-- `getRowStyle` from the connectivity-log viewer:
`logTypes[entry.type]?.style ?? baseRowStyle`. -/
def getRowStyle (entry : ConnectionRecordEntry) : RowStyle :=
  ((logTypes entry.type).bind LogTypeInfo.style).getD baseRowStyle

/-- The three possible values of `leftMenuContent` in `SandyApp`. -/
inductive LeftMenuContent where
  | appInspect
  | notificationView
  | noContent
deriving DecidableEq, Repr

/-- `leftMenuContent` from `SandyApp` lines 297-302:
`!leftSidebarVisible ? null : topLevelSelection === 'appinspect' ?
<AppInspect /> : topLevelSelection === 'notification' ?
<Notification /> : null`. -/
def leftMenuContent (leftSidebarVisible : Bool)
    (topLevelSelection : String) : LeftMenuContent :=
  if !leftSidebarVisible then LeftMenuContent.noContent
  else if topLevelSelection = "appinspect" then LeftMenuContent.appInspect
  else if topLevelSelection = "notification" then
    LeftMenuContent.notificationView
  else LeftMenuContent.noContent

end Flipper

namespace Flipper

theorem map_uniqByGo_eq {α β : Type} [DecidableEq β] (f : α → β)
    (l : List α) : ∀ seen : List β,
    (uniqByGo f seen l).map f = firstDedupSeen seen (l.map f) := by
  induction l with
  | nil => intro seen; rfl
  | cons x xs ih =>
    intro seen
    simp only [uniqByGo, List.map_cons, firstDedupSeen]
    by_cases hx : f x ∈ seen
    · rw [if_pos hx, if_pos hx, ih]
    · rw [if_neg hx, if_neg hx, List.map_cons, ih]

theorem firstDedupSeen_eq_dedup_filter {β : Type} [DecidableEq β]
    (bs : List β) : ∀ seen : List β,
    firstDedupSeen seen bs
      = firstOccurrenceDedup (bs.filter (fun y => decide (y ∉ seen))) := by
  induction bs with
  | nil => intro seen; simp [firstDedupSeen, firstOccurrenceDedup]
  | cons b bs ih =>
    intro seen
    simp only [firstDedupSeen, List.filter_cons]
    by_cases hb : b ∈ seen
    · rw [if_pos hb,
        if_neg (show ¬(decide (b ∉ seen) = true) by simp [hb])]
      exact ih seen
    · rw [if_neg hb,
        if_pos (show decide (b ∉ seen) = true by simp [hb]),
        ih (b :: seen)]
      rw [firstOccurrenceDedup, List.filter_filter]
      congr 1
      congr 1
      apply List.filter_congr
      intro y _
      rw [← Bool.decide_and]
      simp only [decide_eq_decide, List.mem_cons, not_or]

theorem mem_firstDedupSeen {β : Type} [DecidableEq β] (bs : List β) :
    ∀ (seen : List β) (b : β),
      b ∈ firstDedupSeen seen bs ↔ b ∈ bs ∧ b ∉ seen := by
  induction bs with
  | nil => intro seen b; simp [firstDedupSeen]
  | cons x xs ih =>
    intro seen b
    simp only [firstDedupSeen]
    by_cases hx : x ∈ seen
    · rw [if_pos hx, ih]
      by_cases hbx : b = x
      · subst hbx
        simp [hx]
      · simp [hbx]
    · rw [if_neg hx]
      by_cases hbx : b = x
      · subst hbx
        simp [hx]
      · simp [ih, hbx, not_or]

theorem nodup_firstDedupSeen {β : Type} [DecidableEq β] (bs : List β) :
    ∀ seen : List β, (firstDedupSeen seen bs).Nodup := by
  induction bs with
  | nil => intro seen; simp [firstDedupSeen]
  | cons x xs ih =>
    intro seen
    simp only [firstDedupSeen]
    by_cases hx : x ∈ seen
    · rw [if_pos hx]; exact ih seen
    · rw [if_neg hx]
      refine List.nodup_cons.mpr ⟨?_, ih (x :: seen)⟩
      intro hmem
      have := (mem_firstDedupSeen xs (x :: seen) x).mp hmem
      exact this.2 (List.mem_cons_self x seen)

theorem map_uniqBy_correct {α β : Type} [DecidableEq β] (f : α → β)
    (l : List α) :
    (uniqBy f l).map f = firstOccurrenceDedup (l.map f) ∧
      ((uniqBy f l).map f).Nodup ∧
      ∀ b, b ∈ (uniqBy f l).map f ↔ b ∈ l.map f := by
  have h0 : (uniqBy f l).map f = firstDedupSeen [] (l.map f) :=
    map_uniqByGo_eq f l []
  refine ⟨?_, ?_, ?_⟩
  · rw [h0, firstDedupSeen_eq_dedup_filter]
    congr 1
    simp
  · rw [h0]; exact nodup_firstDedupSeen (l.map f) []
  · intro b
    rw [h0, mem_firstDedupSeen]
    simp

theorem lastSepIdx_eq_none_iff (sep : Char) (l : List Char) :
    lastSepIdx sep l = none ↔ sep ∉ l := by
  induction l with
  | nil => simp [lastSepIdx]
  | cons c cs ih =>
    simp only [lastSepIdx, List.mem_cons]
    cases h : lastSepIdx sep cs with
    | some i =>
      have hmem : sep ∈ cs := by
        by_contra hnot
        have h0 := ih.mpr hnot
        rw [h] at h0
        exact Option.noConfusion h0
      constructor
      · intro habs
        exact absurd habs (by simp)
      · intro habs
        exact absurd (Or.inr hmem) habs
    | none =>
      have hnot : sep ∉ cs := ih.mp h
      by_cases hc : c = sep
      · rw [if_pos hc]
        constructor
        · intro habs
          exact Option.noConfusion habs
        · intro habs
          exact absurd (Or.inl hc.symm) habs
      · rw [if_neg hc]
        constructor
        · intro _ habs
          rcases habs with h1 | h2
          · exact hc h1.symm
          · exact hnot h2
        · intro _
          rfl

theorem lastSepIdx_spec (sep : Char) :
    ∀ (l : List Char) (i : Nat), lastSepIdx sep l = some i →
      ∃ pre : List Char,
        l = pre ++ sep :: l.drop (i + 1) ∧ sep ∉ l.drop (i + 1) := by
  intro l
  induction l with
  | nil => intro i h; simp [lastSepIdx] at h
  | cons c cs ih =>
    intro i h
    simp only [lastSepIdx] at h
    cases hcs : lastSepIdx sep cs with
    | some j =>
      rw [hcs] at h
      have hi : i = j + 1 := by
        simpa using h.symm
      obtain ⟨pre, hpre, hnot⟩ := ih j hcs
      refine ⟨c :: pre, ?_, ?_⟩
      · subst hi
        simpa [List.drop] using congrArg (c :: ·) hpre
      · subst hi
        simpa [List.drop] using hnot
    | none =>
      rw [hcs] at h
      by_cases hc : c = sep
      · rw [if_pos hc] at h
        injection h with h0
        subst h0
        refine ⟨[], ?_, ?_⟩
        · simp [hc]
        · simpa [List.drop] using (lastSepIdx_eq_none_iff sep cs).mp hcs
      · simp [hc] at h

/-- C8: when the separator does not occur, `eventTypeToName` returns the
whole string unchanged; when it occurs, it returns exactly the suffix
strictly after the last occurrence. -/
theorem eventTypeToName_correct (sep : Char) (s : String) :
    (sep ∉ s.data → eventTypeToName sep s = s) ∧
      (sep ∈ s.data →
        ∃ pre : List Char,
          s.data = pre ++ sep :: (eventTypeToName sep s).data ∧
            sep ∉ (eventTypeToName sep s).data) := by
  constructor
  · intro hnot
    unfold eventTypeToName
    rw [(lastSepIdx_eq_none_iff sep s.data).mpr hnot]
  · intro hmem
    cases hidx : lastSepIdx sep s.data with
    | none => exact absurd hmem ((lastSepIdx_eq_none_iff sep s.data).mp hidx)
    | some i =>
      obtain ⟨pre, hpre, hnot⟩ := lastSepIdx_spec sep s.data i hidx
      refine ⟨pre, ?_, ?_⟩
      · unfold eventTypeToName
        rw [hidx]
        exact hpre
      · unfold eventTypeToName
        rw [hidx]
        exact hnot

/-- Witness for C8: a string without the separator is returned unchanged;
for one with separators, the part after the last separator is returned. -/
theorem eventTypeToName_correct_witness :
    (eventTypeToName '.' "ab" = "ab") ∧
      (∃ pre : List Char,
        ("a.b.c" : String).data
            = pre ++ '.' :: (eventTypeToName '.' "a.b.c").data ∧
          '.' ∉ (eventTypeToName '.' "a.b.c").data) :=
  ⟨(eventTypeToName_correct '.' "ab").1 (by decide),
    (eventTypeToName_correct '.' "a.b.c").2 (by decide)⟩

/-- C3: the timeline has one entry per filtered event, in order; the entry
at index `i` carries the event's timestamp as `moment`, its
`eventTypeToName` as `display`, its `threadToColor` as `color`, and the
decimal rendering of `i` as `key`. -/
theorem buildTimeline_correct (sep : Char) (filtered : List FrameworkEvent) :
    (buildTimeline sep filtered).length = filtered.length ∧
      ∀ (i : Nat) (e : FrameworkEvent), filtered.get? i = some e →
        (buildTimeline sep filtered).get? i = some
          { moment := e.timestamp
            display := eventTypeToName sep e.type
            color := threadToColor e.thread
            key := natDecimal i } := by
  constructor
  · simp [buildTimeline]
  · intro i e he
    rw [List.get?_eq_getElem?] at he
    rw [buildTimeline, List.mapIdx_eq_enum_map, List.get?_eq_getElem?,
      List.getElem?_map, List.getElem?_enum, he]
    rfl

/-- Witness for C3 on a one-event list. -/
theorem buildTimeline_correct_witness :
    (buildTimeline '.' [⟨"x.tap", "main", 5⟩]).get? 0 = some
      { moment := 5
        display := eventTypeToName '.' "x.tap"
        color := threadToColor "main"
        key := natDecimal 0 } :=
  (buildTimeline_correct '.' [⟨"x.tap", "main", 5⟩]).2 0 ⟨"x.tap", "main", 5⟩ rfl

/-- C1: filtering keeps exactly the events passing both the event-type and
the thread test (each test passes when its filter set is empty or holds
the field), and the result is a sublist of the input, hence in the input's
relative order. -/
theorem filteredEvents_correct (T Θ : Finset String)
    (es : List FrameworkEvent) :
    filteredEvents T Θ es
        = es.filter (fun e =>
            decide ((T = ∅ ∨ e.type ∈ T) ∧ (Θ = ∅ ∨ e.thread ∈ Θ))) ∧
      (filteredEvents T Θ es).Sublist es ∧
      ∀ e, e ∈ filteredEvents T Θ es ↔
        e ∈ es ∧ (T = ∅ ∨ e.type ∈ T) ∧ (Θ = ∅ ∨ e.thread ∈ Θ) := by
  have hmain : filteredEvents T Θ es
      = es.filter (fun e =>
          decide ((T = ∅ ∨ e.type ∈ T) ∧ (Θ = ∅ ∨ e.thread ∈ Θ))) := by
    unfold filteredEvents
    rw [List.filter_filter]
    apply List.filter_congr
    intro e _
    rw [← Bool.decide_and]
    simp only [decide_eq_decide, Finset.card_eq_zero]
    exact and_comm
  refine ⟨hmain, ?_, ?_⟩
  · rw [hmain]; exact List.filter_sublist es
  · intro e
    rw [hmain, List.mem_filter, decide_eq_true_eq]

/-- C4: for every set and every value, the dropdown update with
`selected = true` inserts the value and with `selected = false` erases
it; consequently selecting then deselecting a value not initially present
restores the original set. -/
theorem updateFilter_correct (cur : Finset String) (v : String) :
    updateFilter cur v true = insert v cur ∧
      updateFilter cur v false = cur.erase v ∧
      (v ∉ cur →
        updateFilter (updateFilter cur v true) v false = cur) := by
  refine ⟨rfl, rfl, fun hv => ?_⟩
  show (insert v cur).erase v = cur
  exact Finset.erase_insert hv

/-- Witness for C4 at a concrete set and value, with the round-trip
hypothesis discharged. -/
theorem updateFilter_correct_witness :
    updateFilter ({"a"} : Finset String) "b" true
        = insert "b" ({"a"} : Finset String) ∧
      updateFilter ({"a"} : Finset String) "b" false
        = ({"a"} : Finset String).erase "b" ∧
      updateFilter (updateFilter ({"a"} : Finset String) "b" true) "b" false
        = ({"a"} : Finset String) :=
  ⟨(updateFilter_correct {"a"} "b").1,
    (updateFilter_correct {"a"} "b").2.1,
    (updateFilter_correct {"a"} "b").2.2 (by decide)⟩

/-- C10: `allThreads` and `allEventTypes` hold each distinct thread
(resp. event type) of the events exactly once, in order of first
occurrence, and therefore have no duplicates. -/
theorem allThreads_allEventTypes_correct (events : List FrameworkEvent) :
    allThreads events
        = firstOccurrenceDedup (events.map FrameworkEvent.thread) ∧
      (allThreads events).Nodup ∧
      (∀ t, t ∈ allThreads events ↔ t ∈ events.map FrameworkEvent.thread) ∧
      allEventTypes events
        = firstOccurrenceDedup (events.map FrameworkEvent.type) ∧
      (allEventTypes events).Nodup ∧
      (∀ t, t ∈ allEventTypes events ↔ t ∈ events.map FrameworkEvent.type) := by
  obtain ⟨h1, h2, h3⟩ := map_uniqBy_correct FrameworkEvent.thread events
  obtain ⟨h4, h5, h6⟩ := map_uniqBy_correct FrameworkEvent.type events
  exact ⟨h1, h2, h3, h4, h5, h6⟩

theorem digitChar_isDigit : ∀ d, d < 10 → (Nat.digitChar d).isDigit = true := by
  decide

theorem digitsRev_length_le (k : Nat) :
    ∀ n : Nat, n < 10 ^ (k + 1) → (digitsRev n).length ≤ k + 1 := by
  induction k with
  | zero =>
    intro n h
    have h10 : n < 10 := by simpa using h
    rw [digitsRev, dif_pos h10]
    simp
  | succ k ih =>
    intro n h
    by_cases h10 : n < 10
    · rw [digitsRev, dif_pos h10]
      simp
    · rw [digitsRev, dif_neg h10]
      have hdiv : n / 10 < 10 ^ (k + 1) := by
        rw [Nat.div_lt_iff_lt_mul (by omega)]
        calc n < 10 ^ (k + 1 + 1) := h
        _ = 10 ^ (k + 1) * 10 := by ring
      have := ih (n / 10) hdiv
      simp only [List.length_cons]
      omega

theorem digitsRev_isDigit (n : Nat) :
    ∀ c ∈ digitsRev n, c.isDigit = true := by
  induction n using Nat.strong_induction_on with
  | _ n ih =>
    by_cases h : n < 10
    · rw [digitsRev, dif_pos h]
      intro c hc
      rw [List.mem_singleton] at hc
      subst hc
      exact digitChar_isDigit n h
    · rw [digitsRev, dif_neg h]
      intro c hc
      rcases List.mem_cons.mp hc with h1 | h2
      · subst h1
        exact digitChar_isDigit (n % 10) (Nat.mod_lt _ (by omega))
      · exact ih (n / 10) (Nat.div_lt_self (by omega) (by omega)) c h2

theorem natDecimal_length_le_three (n : Nat) (h : n < 1000) :
    (natDecimal n).length ≤ 3 := by
  have := digitsRev_length_le 2 n (by norm_num; omega)
  simpa [natDecimal, String.length] using this

theorem natDecimal_isDigit (n : Nat) :
    ∀ c ∈ (natDecimal n).data, c.isDigit = true := by
  intro c hc
  apply digitsRev_isDigit n
  have : c ∈ (digitsRev n).reverse := hc
  simpa using this

theorem padStart_length (w : Nat) (c : Char) (s : String)
    (h : s.length ≤ w) : (padStart w c s).length = w := by
  obtain ⟨sd⟩ := s
  have hlen : (String.mk sd).length = sd.length := rfl
  unfold padStart
  by_cases hw : w ≤ (String.mk sd).length
  · rw [if_pos hw]
    rw [hlen] at hw h ⊢
    omega
  · rw [if_neg hw]
    show (List.replicate (w - (String.mk sd).length) c ++ sd).length = w
    rw [List.length_append, List.length_replicate, hlen] at *
    omega

theorem padStart_data (w : Nat) (c : Char) (s : String) :
    (padStart w c s).data = s.data ∨
      (padStart w c s).data
        = List.replicate (w - s.length) c ++ s.data := by
  obtain ⟨sd⟩ := s
  unfold padStart
  by_cases hw : w ≤ (String.mk sd).length
  · rw [if_pos hw]; exact Or.inl rfl
  · rw [if_neg hw]; exact Or.inr rfl

/-- C6: `formatTimestamp` produces the `Intl`-formatted clock time
followed by a dot and exactly three digit characters: the timestamp's
millisecond component (`timestamp mod 1000`) zero-padded to width 3. -/
theorem formatTimestamp_correct (intlFormat : Nat → String) (t : Nat) :
    formatTimestamp intlFormat t
        = intlFormat t ++ "." ++ padStart 3 '0' (natDecimal (t % 1000)) ∧
      (padStart 3 '0' (natDecimal (t % 1000))).length = 3 ∧
      ∀ c ∈ (padStart 3 '0' (natDecimal (t % 1000))).data,
        c.isDigit = true := by
  refine ⟨rfl, ?_, ?_⟩
  · exact padStart_length 3 '0' _
      (natDecimal_length_le_three _ (Nat.mod_lt _ (by omega)))
  · intro c hc
    rcases padStart_data 3 '0' (natDecimal (t % 1000)) with hd | hd
    · rw [hd] at hc
      exact natDecimal_isDigit _ c hc
    · rw [hd] at hc
      rcases List.mem_append.mp hc with h1 | h2
      · rw [List.eq_of_mem_replicate h1]
        decide
      · exact natDecimal_isDigit _ c h2

/-- C2: `formatDuration` renders plain nanoseconds below 1000, and in the
four further branches hands the quotient by 10^3, 10^6, 10^9 and 60·10^9
to the two-decimal-place renderer, with the branch bounds
10^6, 10^9 and 10^12. -/
theorem formatDuration_correct (toFixed2 : ℚ → String) (n : Nat) :
    (n < 1000 →
      formatDuration toFixed2 n = natDecimal n ++ " nanoseconds") ∧
      (1000 ≤ n → n < 10 ^ 6 →
        formatDuration toFixed2 n
          = toFixed2 ((n : ℚ) / 1000) ++ " microseconds") ∧
      (10 ^ 6 ≤ n → n < 10 ^ 9 →
        formatDuration toFixed2 n
          = toFixed2 ((n : ℚ) / 10 ^ 6) ++ " milliseconds") ∧
      (10 ^ 9 ≤ n → n < 10 ^ 12 →
        formatDuration toFixed2 n
          = toFixed2 ((n : ℚ) / 10 ^ 9) ++ " seconds") ∧
      (10 ^ 12 ≤ n →
        formatDuration toFixed2 n
          = toFixed2 ((n : ℚ) / (60 * 10 ^ 9)) ++ " minutes") := by
  refine ⟨?_, ?_, ?_, ?_, ?_⟩
  · intro h
    rw [formatDuration, if_pos h]
  · intro h1 h2
    norm_num at h2
    rw [formatDuration, if_neg (by omega), if_pos (by omega)]
  · intro h1 h2
    norm_num at h1 h2
    rw [formatDuration, if_neg (by omega), if_neg (by omega),
      if_pos (by omega)]
    norm_num
  · intro h1 h2
    norm_num at h1 h2
    rw [formatDuration, if_neg (by omega), if_neg (by omega),
      if_neg (by omega), if_pos (by omega)]
    norm_num
  · intro h1
    norm_num at h1
    rw [formatDuration, if_neg (by omega), if_neg (by omega),
      if_neg (by omega), if_neg (by omega)]
    norm_num

/-- Witness for C2: one concrete input per branch. -/
theorem formatDuration_correct_witness :
    (formatDuration (fun _ => "f") 7
        = natDecimal 7 ++ " nanoseconds") ∧
      (formatDuration (fun _ => "f") 2000
        = (fun (_ : ℚ) => "f") ((2000 : ℚ) / 1000) ++ " microseconds") ∧
      (formatDuration (fun _ => "f") 2000000
        = (fun (_ : ℚ) => "f") ((2000000 : ℚ) / 10 ^ 6) ++ " milliseconds") ∧
      (formatDuration (fun _ => "f") 2000000000
        = (fun (_ : ℚ) => "f") ((2000000000 : ℚ) / 10 ^ 9) ++ " seconds") ∧
      (formatDuration (fun _ => "f") 2000000000000
        = (fun (_ : ℚ) => "f") ((2000000000000 : ℚ) / (60 * 10 ^ 9))
            ++ " minutes") :=
  ⟨(formatDuration_correct (fun _ => "f") 7).1 (by norm_num),
    (formatDuration_correct (fun _ => "f") 2000).2.1 (by norm_num)
      (by norm_num),
    (formatDuration_correct (fun _ => "f") 2000000).2.2.1 (by norm_num)
      (by norm_num),
    (formatDuration_correct (fun _ => "f") 2000000000).2.2.2.1 (by norm_num)
      (by norm_num),
    (formatDuration_correct (fun _ => "f") 2000000000000).2.2.2.2
      (by norm_num)⟩

/-- C9: the options list has exactly one option per entry of
`enumLabels`, in enumeration order, whose `value` is the key and whose
`label` is the associated label. -/
theorem enumTermOptions_correct (enumLabels : List (String × String)) :
    (enumTermOptions enumLabels).length = enumLabels.length ∧
      ∀ (i : Nat) (kv : String × String), enumLabels.get? i = some kv →
        (enumTermOptions enumLabels).get? i
          = some { label := kv.2, value := kv.1 } := by
  constructor
  · simp [enumTermOptions]
  · intro i kv h
    rw [List.get?_eq_getElem?] at h
    rw [enumTermOptions, List.get?_eq_getElem?, List.getElem?_map, h]
    rfl

/-- Witness for C9 on a one-entry object. -/
theorem enumTermOptions_correct_witness :
    (enumTermOptions [("click", "Click")]).get? 0
      = some { label := "Click", value := "click" } :=
  (enumTermOptions_correct [("click", "Click")]).2 0 ("click", "Click") rfl

/-- C5: `getRowStyle` returns the style registered in `logTypes` for the
entry's type when one exists, and `baseRowStyle` otherwise — in
particular for type `log` (registered without a style) and for any type
absent from `logTypes`. -/
theorem getRowStyle_correct (entry : ConnectionRecordEntry) :
    (∀ info s, logTypes entry.type = some info → info.style = some s →
        getRowStyle entry = s) ∧
      (logTypes entry.type = none → getRowStyle entry = baseRowStyle) ∧
      (∀ info, logTypes entry.type = some info → info.style = none →
        getRowStyle entry = baseRowStyle) ∧
      (entry.type = "log" → getRowStyle entry = baseRowStyle) := by
  refine ⟨?_, ?_, ?_, ?_⟩
  · intro info s h1 h2
    simp [getRowStyle, h1, h2]
  · intro h
    simp [getRowStyle, h]
  · intro info h1 h2
    simp [getRowStyle, h1, h2]
  · intro h
    simp [getRowStyle, logTypes, h]

/-- Witness for C5: a `cmd` entry gets the registered `cmd` style, a
`log` entry and an unregistered `trace` entry get the base row style. -/
theorem getRowStyle_correct_witness :
    getRowStyle ⟨"", "", "", "", "", "cmd"⟩
        = { monospace := true, color := some ThemeColor.primaryColor } ∧
      getRowStyle ⟨"", "", "", "", "", "trace"⟩ = baseRowStyle ∧
      getRowStyle ⟨"", "", "", "", "", "log"⟩ = baseRowStyle :=
  ⟨(getRowStyle_correct ⟨"", "", "", "", "", "cmd"⟩).1
      { label := "Shell", hasIcon := true,
        style := some { monospace := true,
                        color := some ThemeColor.primaryColor },
        enabled := true }
      { monospace := true, color := some ThemeColor.primaryColor }
      (by decide) (by decide),
    (getRowStyle_correct ⟨"", "", "", "", "", "trace"⟩).2.1 (by decide),
    (getRowStyle_correct ⟨"", "", "", "", "", "log"⟩).2.2.2 rfl⟩

/-- C7: the left menu shows `AppInspect` exactly when the left sidebar is
visible and the selection is `appinspect`, `Notification` exactly when it
is visible and the selection is `notification`, and nothing in every
other state — in particular whenever the sidebar is hidden. -/
theorem leftMenuContent_correct (v : Bool) (s : String) :
    (leftMenuContent v s = LeftMenuContent.appInspect ↔
        v = true ∧ s = "appinspect") ∧
      (leftMenuContent v s = LeftMenuContent.notificationView ↔
        v = true ∧ s = "notification") ∧
      (leftMenuContent v s = LeftMenuContent.noContent ↔
        v = false ∨ (s ≠ "appinspect" ∧ s ≠ "notification")) := by
  cases v with
  | false => simp [leftMenuContent]
  | true =>
    by_cases h1 : s = "appinspect"
    · simp [leftMenuContent, h1]
    · by_cases h2 : s = "notification"
      · simp [leftMenuContent, h1, h2]
      · simp [leftMenuContent, h1, h2]

end Flipper
